import Mathlib

/-!
Verification of the real-time Room Session Coordinator of the riverside
backend (src/backend/src/socket/index.ts), a socket server managing an
in-memory presence registry (`roomParticipants : Map<string, Map<string,
RoomParticipant>>`) beside a persisted store (rooms, participant records,
waiting-room entries).

JavaScript `Map`s are embedded as association lists with unique keys;
`Map.get/set/delete` become `mapGet/mapSet/mapDel`, where `mapSet`
overwrites in place when the key is present and appends otherwise, exactly
as a JS `Map` does.  Each socket event handler becomes a pure function from
the persisted store, the handler arguments and the registry to the new
state together with the list of emitted events, each tagged with its
delivery scope (`socket.emit`, `socket.to(room).emit`, `io.to(room).emit`,
or a direct emit to a fetched socket).
-/

namespace Riverside

/-- Association-list lookup: first binding of the key, as `Map.get`. -/
def mapGet {κ α : Type} [DecidableEq κ] : List (κ × α) → κ → Option α
  | [], _ => none
  | p :: rest, k => if p.1 = k then some p.2 else mapGet rest k

/-- Key membership, as `Map.has`. -/
def mapHas {κ α : Type} [DecidableEq κ] (m : List (κ × α)) (k : κ) : Bool :=
  (mapGet m k).isSome

/-- `Map.set`: overwrite in place when present, append when absent. -/
def mapSet {κ α : Type} [DecidableEq κ] : List (κ × α) → κ → α → List (κ × α)
  | [], k, v => [(k, v)]
  | p :: rest, k, v => if p.1 = k then (k, v) :: rest else p :: mapSet rest k v

/-- `Map.delete`: remove every binding of the key. -/
def mapDel {κ α : Type} [DecidableEq κ] : List (κ × α) → κ → List (κ × α)
  | [], _ => []
  | p :: rest, k => if p.1 = k then mapDel rest k else p :: mapDel rest k

/-- Number of bindings of a key (1 for a well-formed map that has it). -/
def countKey {κ α : Type} [DecidableEq κ] : List (κ × α) → κ → Nat
  | [], _ => 0
  | p :: rest, k => (if p.1 = k then 1 else 0) + countKey rest k

/-- Keys are pairwise distinct, as they always are in a JS `Map`. -/
abbrev nodupKeys {κ α : Type} (m : List (κ × α)) : Prop :=
  (m.map Prod.fst).Nodup

/-- Participant role, enum `ParticipantRole` of the persisted schema. -/
inductive Role where
  | HOST
  | GUEST
  deriving DecidableEq

/-- Interface `RoomParticipant` of socket/index.ts: one live presence
entry of the in-memory registry. -/
structure RoomParticipant where
  odId : String
  odName : String
  odIsMuted : Bool
  odIsVideoOff : Bool
  odRole : Role
  deriving DecidableEq

/-- The inner map of the registry: user id to presence entry. -/
abbrev EntryMap := List (String × RoomParticipant)

/-- The module-level `roomParticipants` map: room id to entry map. -/
abbrev Registry := List (String × EntryMap)

/-- The sender has a presence entry in the named room:
`roomParticipants.has(roomId) && roomParticipants.get(roomId).has(uid)`. -/
def regHasEntry (reg : Registry) (roomId uid : String) : Bool :=
  match mapGet reg roomId with
  | some m => mapHas m uid
  | none => false

/-- Persisted `Room` row, the fields the socket layer reads. -/
structure RoomRec where
  isActive : Bool
  hostId : String
  videoEnabled : Bool
  audioOnly : Bool
  maxParticipants : Nat
  code : String
  title : String
  deriving DecidableEq

/-- Persisted `Participant` row (unique on (userId, roomId)); `leftAt`
is `none` while the user is a participant of record. -/
structure PartRec where
  role : Role
  leftAt : Option Nat
  deriving DecidableEq

/-- Persisted `WaitingRoom` status enum. -/
inductive WStatus where
  | PENDING
  | APPROVED
  | REJECTED
  deriving DecidableEq

/-- The persisted store as seen through the prisma calls the handlers
make: rooms by id, participant rows by (userId, roomId), waiting-room
rows by (userId, roomId). -/
structure DB where
  rooms : List (String × RoomRec)
  parts : List ((String × String) × PartRec)
  waiting : List ((String × String) × WStatus)
  deriving DecidableEq

/-- `prisma.room.findUnique({ where: { id: roomId } })`. -/
def dbGetRoom (db : DB) (roomId : String) : Option RoomRec :=
  mapGet db.rooms roomId

/-- The `room.participants` include filtered by
`{ userId, leftAt: null }`, then `participants[0]`: the participant row
of (userId, roomId) provided it has `leftAt = null`. -/
def dbGetActivePart (db : DB) (userId roomId : String) : Option PartRec :=
  match mapGet db.parts (userId, roomId) with
  | some pr => if pr.leftAt = none then some pr else none
  | none => none

/-- `prisma.participant.updateMany({ where: { roomId, userId, leftAt:
null }, data: { leftAt: new Date() } })`. -/
def dbSetLeftAt (db : DB) (userId roomId : String) (now : Nat) : DB :=
  { db with
    parts := db.parts.map fun p =>
      if p.1 = (userId, roomId) ∧ p.2.leftAt = none then
        (p.1, { p.2 with leftAt := some now })
      else p }

/-- Delivery scope of an emitted event. -/
inductive EmitScope where
  | toCaller
  | toRoomOthers (roomId : String)
  | toRoomAll (roomId : String)
  | toSocket (userId : String)
  deriving DecidableEq

/-- The server-to-client events the socket layer emits. -/
inductive Event where
  | error (message : String)
  | roomJoined (roomId roomCode roomTitle : String)
      (participants : List RoomParticipant)
      (videoEnabled audioOnly : Bool) (maxParticipants : Nat)
  | participantJoined (odId odName : String) (odRole : Role)
  | participantLeft (userId userName : String)
  | chatMessage (id userId userName message timestamp : String)
  | participantAudioChanged (odId : String) (odIsMuted : Bool)
  | participantVideoChanged (odId : String) (odIsVideoOff : Bool)
  | participantMutedByHost (odId mutedBy : String)
  | participantRemovedByHost (odId removedBy : String)
  | youWereRemoved (roomId removedBy : String)
  | waitingRoomApproved (userId : String)
  deriving DecidableEq

/-- One emitted event together with where it is delivered. -/
abbrev Action := EmitScope × Event

/-- The `join-room` handler: room lookup, active check, participant-of-
record check, then insert/overwrite the presence entry, unicast the
`room-joined` snapshot and broadcast `participant-joined` to the rest. -/
def handleJoinRoom (db : DB) (uid uname roomId : String) (reg : Registry) :
    Registry × List Action :=
  match dbGetRoom db roomId with
  | none => (reg, [(EmitScope.toCaller, Event.error "Room not found")])
  | some room =>
    if room.isActive = false then
      (reg, [(EmitScope.toCaller, Event.error "Room is not active")])
    else
      match dbGetActivePart db uid roomId with
      | none =>
        (reg, [(EmitScope.toCaller,
                Event.error "You are not a participant in this room")])
      | some part =>
        let m0 := (mapGet reg roomId).getD []
        let entry : RoomParticipant :=
          ⟨uid, uname, false, !room.videoEnabled, part.role⟩
        let m1 := mapSet m0 uid entry
        (mapSet reg roomId m1,
         [(EmitScope.toCaller,
           Event.roomJoined roomId room.code room.title (m1.map Prod.snd)
             room.videoEnabled room.audioOnly room.maxParticipants),
          (EmitScope.toRoomOthers roomId,
           Event.participantJoined uid uname part.role)])

/-- The `leave-room` handler: delete the sender's entry if the room is
tracked, prune the room when its map became empty, and broadcast
`participant-left` to the others unconditionally. -/
def handleLeaveRoom (uid uname roomId : String) (reg : Registry) :
    Registry × List Action :=
  (match mapGet reg roomId with
   | none => reg
   | some m =>
     if (mapDel m uid).isEmpty then mapDel reg roomId
     else mapSet reg roomId (mapDel m uid),
   [(EmitScope.toRoomOthers roomId, Event.participantLeft uid uname)])

/-- JavaScript `String.prototype.trim`: strip leading and trailing
whitespace. -/
def jsTrim (s : String) : String :=
  ⟨((s.data.dropWhile Char.isWhitespace).reverse.dropWhile
      Char.isWhitespace).reverse⟩

/-- The `chat-message` handler.  `msgId` and `ts` stand for the
generated message id and ISO timestamp. -/
def handleChatMessage (uid uname roomId message msgId ts : String)
    (reg : Registry) : Registry × List Action :=
  if (jsTrim message).length = 0 then (reg, [])
  else if regHasEntry reg roomId uid = false then
    (reg, [(EmitScope.toCaller, Event.error "You are not in this room")])
  else
    (reg, [(EmitScope.toRoomAll roomId,
            Event.chatMessage msgId uid uname (jsTrim message) ts)])

/-- The `toggle-audio` handler: only acts when the sender has a presence
entry in the room; then sets `odIsMuted` and notifies the others. -/
def handleToggleAudio (uid roomId : String) (isMuted : Bool)
    (reg : Registry) : Registry × List Action :=
  match mapGet reg roomId with
  | none => (reg, [])
  | some m =>
    match mapGet m uid with
    | none => (reg, [])
    | some p =>
      (mapSet reg roomId (mapSet m uid { p with odIsMuted := isMuted }),
       [(EmitScope.toRoomOthers roomId,
         Event.participantAudioChanged uid isMuted)])

/-- The `toggle-video` handler, the video twin of `handleToggleAudio`. -/
def handleToggleVideo (uid roomId : String) (isVideoOff : Bool)
    (reg : Registry) : Registry × List Action :=
  match mapGet reg roomId with
  | none => (reg, [])
  | some m =>
    match mapGet m uid with
    | none => (reg, [])
    | some p =>
      (mapSet reg roomId (mapSet m uid { p with odIsVideoOff := isVideoOff }),
       [(EmitScope.toRoomOthers roomId,
         Event.participantVideoChanged uid isVideoOff)])

/-- The `host-mute-participant` handler: host check against the persisted
room, mute the target's entry when present, broadcast to the whole room
either way. -/
def handleHostMute (db : DB) (uid uname roomId targetUserId : String)
    (reg : Registry) : Registry × List Action :=
  match dbGetRoom db roomId with
  | none =>
    (reg, [(EmitScope.toCaller,
            Event.error "Only the host can mute participants")])
  | some room =>
    if room.hostId = uid then
      let reg1 :=
        match mapGet reg roomId with
        | none => reg
        | some m =>
          match mapGet m targetUserId with
          | none => reg
          | some p =>
            mapSet reg roomId (mapSet m targetUserId { p with odIsMuted := true })
      (reg1, [(EmitScope.toRoomAll roomId,
               Event.participantMutedByHost targetUserId uname)])
    else
      (reg, [(EmitScope.toCaller,
              Event.error "Only the host can mute participants")])

/-- The `host-remove-participant` handler.  `socketsInRoom` lists the
user ids of the sockets `io.in(roomId).fetchSockets()` returns.  Note the
registry update deletes the target from the room's map but, unlike leave
and disconnect, never prunes an emptied room key. -/
def handleHostRemove (db : DB) (now : Nat)
    (uid uname roomId targetUserId : String) (socketsInRoom : List String)
    (reg : Registry) : DB × Registry × List Action :=
  match dbGetRoom db roomId with
  | none =>
    (db, reg, [(EmitScope.toCaller,
                Event.error "Only the host can remove participants")])
  | some room =>
    if room.hostId = uid then
      if targetUserId = uid then
        (db, reg, [(EmitScope.toCaller,
                    Event.error "Host cannot remove themselves")])
      else
        let db1 := dbSetLeftAt db targetUserId roomId now
        let reg1 :=
          match mapGet reg roomId with
          | none => reg
          | some m => mapSet reg roomId (mapDel m targetUserId)
        (db1, reg1,
         (EmitScope.toRoomAll roomId,
          Event.participantRemovedByHost targetUserId uname) ::
         (socketsInRoom.filter fun s => decide (s = targetUserId)).map
           fun s => (EmitScope.toSocket s, Event.youWereRemoved roomId uname))
    else
      (db, reg, [(EmitScope.toCaller,
                  Event.error "Only the host can remove participants")])

/-- The `approve-waiting-participant` handler: host check, then the
waiting-room row is updated to APPROVED (prisma `update` throws when the
row is missing, caught as the generic failure message), then a fresh
participant row with role GUEST is created (prisma `create` throws on the
(userId, roomId) unique constraint), then `waiting-room-approved` is
broadcast.  The registry is never touched. -/
def handleApproveWaiting (db : DB) (uid roomId userId : String)
    (reg : Registry) : DB × Registry × List Action :=
  match dbGetRoom db roomId with
  | none =>
    (db, reg, [(EmitScope.toCaller,
                Event.error "Only the host can approve participants")])
  | some room =>
    if room.hostId = uid then
      match mapGet db.waiting (userId, roomId) with
      | none =>
        (db, reg, [(EmitScope.toCaller,
                    Event.error "Failed to approve participant")])
      | some _ =>
        let db1 : DB :=
          { db with waiting := mapSet db.waiting (userId, roomId) WStatus.APPROVED }
        if mapHas db1.parts (userId, roomId) then
          (db1, reg, [(EmitScope.toCaller,
                       Event.error "Failed to approve participant")])
        else
          (({ db1 with
              parts := db1.parts ++ [((userId, roomId), ⟨Role.GUEST, none⟩)] }),
           reg, [(EmitScope.toRoomAll roomId, Event.waitingRoomApproved userId)])
    else
      (db, reg, [(EmitScope.toCaller,
                  Event.error "Only the host can approve participants")])

/-- The `disconnect` handler: `roomParticipants.forEach` over every room,
deleting the user's entry where present, notifying that room's others,
and pruning rooms the deletion emptied. -/
def handleDisconnect (uid uname : String) : Registry → Registry × List Action
  | [] => ([], [])
  | rp :: rest =>
    let tail := handleDisconnect uid uname rest
    if mapHas rp.2 uid then
      let m1 := mapDel rp.2 uid
      let evs := (EmitScope.toRoomOthers rp.1,
                  Event.participantLeft uid uname) :: tail.2
      if m1.isEmpty then (tail.1, evs) else ((rp.1, m1) :: tail.1, evs)
    else ((rp.1, rp.2) :: tail.1, tail.2)

/-- One registry transition by a `join-room`, `leave-room` or
`disconnect` handler run (the persisted store an arbitrary read-only
collaborator at each step). -/
inductive Step3 : Registry → Registry → Prop where
  | join (db : DB) (uid uname roomId : String) (reg : Registry) :
      Step3 reg (handleJoinRoom db uid uname roomId reg).1
  | leave (uid uname roomId : String) (reg : Registry) :
      Step3 reg (handleLeaveRoom uid uname roomId reg).1
  | disc (uid uname : String) (reg : Registry) :
      Step3 reg (handleDisconnect uid uname reg).1

/-- One registry transition by `join-room`, `leave-room`, `disconnect`
or `host-remove-participant`. -/
inductive Step4 : Registry → Registry → Prop where
  | join (db : DB) (uid uname roomId : String) (reg : Registry) :
      Step4 reg (handleJoinRoom db uid uname roomId reg).1
  | leave (uid uname roomId : String) (reg : Registry) :
      Step4 reg (handleLeaveRoom uid uname roomId reg).1
  | disc (uid uname : String) (reg : Registry) :
      Step4 reg (handleDisconnect uid uname reg).1
  | hostRemove (db : DB) (now : Nat)
      (uid uname roomId targetUserId : String) (socketsInRoom : List String)
      (reg : Registry) :
      Step4 reg
        (handleHostRemove db now uid uname roomId targetUserId socketsInRoom reg).2.1

/-- Registry states reachable from the empty initial registry by
join/leave/disconnect handler runs. -/
def Reach3 (reg : Registry) : Prop :=
  Relation.ReflTransGen Step3 [] reg

/-- Registry states reachable from the empty initial registry when
`host-remove-participant` runs are allowed as well. -/
def Reach4 (reg : Registry) : Prop :=
  Relation.ReflTransGen Step4 [] reg

/-- No room key of the registry holds an empty entry map. -/
def RegInv (reg : Registry) : Prop :=
  ∀ rp ∈ reg, rp.2 ≠ ([] : EntryMap)

/-- Fixture: an active room hosted by `h` with video enabled. -/
def roomR : RoomRec :=
  ⟨true, "h", true, false, 10, "abc-def-ghi", "Alpha"⟩

/-- Fixture: an inactive room hosted by `h`. -/
def roomS : RoomRec :=
  ⟨false, "h", true, false, 10, "jkl-mno-pqr", "Beta"⟩

/-- Fixture persisted store: rooms `R` (active) and `S` (inactive),
participant rows for `g` (guest of record), `h` (host of record) and `x`
(already left) in `R`, and a pending waiting-room row for `w` in `R`. -/
def db0 : DB :=
  { rooms := [("R", roomR), ("S", roomS)],
    parts := [(("g", "R"), ⟨Role.GUEST, none⟩),
              (("h", "R"), ⟨Role.HOST, none⟩),
              (("x", "R"), ⟨Role.GUEST, some 5⟩)],
    waiting := [(("w", "R"), WStatus.PENDING)] }

/-- Fixture presence entry produced by `g` joining room `R`. -/
def entryG : RoomParticipant := ⟨"g", "G", false, false, Role.GUEST⟩

/-- Fixture presence entry for a bystander `k`. -/
def entryK : RoomParticipant := ⟨"k", "K", false, false, Role.GUEST⟩

/-- Fixture registry: `g` is present in rooms `R` and `Q`; `k` is also
present in `Q`. -/
def regW : Registry :=
  [("R", [("g", entryG)]), ("Q", [("g", entryG), ("k", entryK)])]

section MapLemmas

variable {κ α : Type} [DecidableEq κ]

theorem mapGet_mapSet_self (m : List (κ × α)) (k : κ) (v : α) :
    mapGet (mapSet m k v) k = some v := by
  induction m with
  | nil => simp [mapSet, mapGet]
  | cons p rest ih =>
    by_cases h : p.1 = k
    · simp [mapSet, h, mapGet]
    · simp [mapSet, h, mapGet, ih]

theorem mapGet_mapDel_self (m : List (κ × α)) (k : κ) :
    mapGet (mapDel m k) k = none := by
  induction m with
  | nil => simp [mapDel, mapGet]
  | cons p rest ih =>
    by_cases h : p.1 = k
    · simp [mapDel, h, ih]
    · simp [mapDel, h, mapGet, ih]

theorem mapHas_mapDel_self (m : List (κ × α)) (k : κ) :
    mapHas (mapDel m k) k = false := by
  simp [mapHas, mapGet_mapDel_self]

theorem mapDel_eq_self (m : List (κ × α)) (k : κ) (h : mapGet m k = none) :
    mapDel m k = m := by
  induction m with
  | nil => simp [mapDel]
  | cons p rest ih =>
    by_cases hp : p.1 = k
    · simp [mapGet, hp] at h
    · simp [mapGet, hp] at h
      simp [mapDel, hp, ih h]

theorem mapSet_ne_nil (m : List (κ × α)) (k : κ) (v : α) :
    mapSet m k v ≠ [] := by
  cases m with
  | nil => simp [mapSet]
  | cons p rest => by_cases h : p.1 = k <;> simp [mapSet, h]

theorem mem_mapSet (m : List (κ × α)) (k : κ) (v : α) (q : κ × α)
    (hq : q ∈ mapSet m k v) : q = (k, v) ∨ q ∈ m := by
  induction m with
  | nil =>
    simp [mapSet] at hq
    exact Or.inl hq
  | cons p rest ih =>
    by_cases h : p.1 = k
    · simp [mapSet, h] at hq
      rcases hq with h1 | h2
      · exact Or.inl h1
      · exact Or.inr (List.mem_cons_of_mem _ h2)
    · simp [mapSet, h] at hq
      rcases hq with h1 | h2
      · exact Or.inr (by simp [h1])
      · rcases ih h2 with h3 | h4
        · exact Or.inl h3
        · exact Or.inr (List.mem_cons_of_mem _ h4)

theorem mem_mapDel (m : List (κ × α)) (k : κ) (q : κ × α)
    (hq : q ∈ mapDel m k) : q ∈ m := by
  induction m with
  | nil => simp [mapDel] at hq
  | cons p rest ih =>
    by_cases h : p.1 = k
    · simp [mapDel, h] at hq
      exact List.mem_cons_of_mem _ (ih hq)
    · simp [mapDel, h] at hq
      rcases hq with h1 | h2
      · exact by simp [h1]
      · exact List.mem_cons_of_mem _ (ih h2)

theorem mapGet_mem (m : List (κ × α)) (k : κ) (v : α)
    (h : mapGet m k = some v) : (k, v) ∈ m := by
  induction m with
  | nil => simp [mapGet] at h
  | cons p rest ih =>
    obtain ⟨pk, pv⟩ := p
    by_cases hp : pk = k
    · simp [mapGet, hp] at h
      simp [hp, h]
    · simp [mapGet, hp] at h
      exact List.mem_cons_of_mem _ (ih h)

theorem mapGet_eq_none_of_forall (m : List (κ × α)) (k : κ)
    (h : ∀ q ∈ m, q.1 ≠ k) : mapGet m k = none := by
  induction m with
  | nil => simp [mapGet]
  | cons p rest ih =>
    have hp : p.1 ≠ k := h p (List.mem_cons_self _ _)
    simp only [mapGet, if_neg hp]
    exact ih fun q hq => h q (List.mem_cons_of_mem _ hq)

theorem mapGet_append_some (m : List (κ × α)) (k : κ) (v : α)
    (h : mapGet m k = none) : mapGet (m ++ [(k, v)]) k = some v := by
  induction m with
  | nil => simp [mapGet]
  | cons p rest ih =>
    by_cases hp : p.1 = k
    · simp [mapGet, hp] at h
    · simp [mapGet, hp] at h ⊢
      exact ih h

theorem countKey_mapSet (m : List (κ × α)) (k : κ) (v : α)
    (h : countKey m k ≤ 1) : countKey (mapSet m k v) k = 1 := by
  induction m with
  | nil => simp [mapSet, countKey]
  | cons p rest ih =>
    by_cases hp : p.1 = k
    · have h2 : countKey rest k = 0 := by
        simp [countKey, hp] at h
        omega
      simp [mapSet, hp, countKey, h2]
    · simp [countKey, hp] at h
      simp [mapSet, hp, countKey, ih h]

omit [DecidableEq κ] in
theorem nodupKeys_cons {p : κ × α} {rest : List (κ × α)}
    (h : nodupKeys (p :: rest)) : nodupKeys rest := by
  simp only [nodupKeys, List.map_cons, List.nodup_cons] at h
  exact h.2

omit [DecidableEq κ] in
theorem nodupKeys_head {p : κ × α} {rest : List (κ × α)}
    (h : nodupKeys (p :: rest)) (q : κ × α) (hq : q ∈ rest) : q.1 ≠ p.1 := by
  have h1 : p.1 ∉ rest.map Prod.fst := by
    have := (List.nodup_cons.mp (by
      simpa only [nodupKeys, List.map_cons] using h)).1
    exact this
  intro he
  exact h1 (by rw [← he]; exact List.mem_map_of_mem Prod.fst hq)

theorem mapGet_of_mem_nodup (m : List (κ × α)) (k : κ) (v : α)
    (hnd : nodupKeys m) (hm : (k, v) ∈ m) : mapGet m k = some v := by
  induction m with
  | nil => simp at hm
  | cons p rest ih =>
    rcases List.mem_cons.mp hm with h1 | h2
    · simp [← h1, mapGet]
    · have hne : p.1 ≠ k := fun he =>
        nodupKeys_head hnd (k, v) h2 (by simpa using he.symm)
      simp only [mapGet, if_neg hne]
      exact ih (nodupKeys_cons hnd) h2

theorem mapSet_eq_self (m : List (κ × α)) (k : κ) (v : α)
    (hnd : nodupKeys m) (h : mapGet m k = some v) : mapSet m k v = m := by
  induction m with
  | nil => simp [mapGet] at h
  | cons p rest ih =>
    obtain ⟨pk, pv⟩ := p
    by_cases hp : pk = k
    · simp [mapGet, hp] at h
      simp [mapSet, hp, h]
    · simp [mapGet, hp] at h
      simp only [mapSet, if_neg (by simpa using hp)]
      rw [ih (nodupKeys_cons hnd) h]

end MapLemmas

theorem RegInv_nil : RegInv [] := by
  intro rp h
  simp at h

theorem RegInv_mapSet {reg : Registry} {r : String} {m : EntryMap}
    (h : RegInv reg) (hm : m ≠ []) : RegInv (mapSet reg r m) := by
  intro q hq
  rcases mem_mapSet reg r m q hq with h1 | h2
  · subst h1; exact hm
  · exact h q h2

theorem RegInv_mapDel {reg : Registry} {r : String} (h : RegInv reg) :
    RegInv (mapDel reg r) :=
  fun q hq => h q (mem_mapDel reg r q hq)

theorem RegInv_join (db : DB) (uid uname roomId : String) (reg : Registry)
    (h : RegInv reg) : RegInv (handleJoinRoom db uid uname roomId reg).1 := by
  unfold handleJoinRoom
  cases hr : dbGetRoom db roomId with
  | none => exact h
  | some room =>
    by_cases ha : room.isActive = false
    · simp only [if_pos ha]
      exact h
    · simp only [if_neg ha]
      cases hp : dbGetActivePart db uid roomId with
      | none => exact h
      | some part =>
        exact RegInv_mapSet h (mapSet_ne_nil _ _ _)

theorem RegInv_leave (uid uname roomId : String) (reg : Registry)
    (h : RegInv reg) : RegInv (handleLeaveRoom uid uname roomId reg).1 := by
  unfold handleLeaveRoom
  cases hg : mapGet reg roomId with
  | none => exact h
  | some m =>
    by_cases he : (mapDel m uid).isEmpty
    · simp only [if_pos he]
      exact RegInv_mapDel h
    · simp only [if_neg he]
      exact RegInv_mapSet h (by simpa [List.isEmpty_iff] using he)

theorem RegInv_disc (uid uname : String) (reg : Registry)
    (h : RegInv reg) : RegInv (handleDisconnect uid uname reg).1 := by
  induction reg with
  | nil => exact RegInv_nil
  | cons rp rest ih =>
    have hrest : RegInv rest := fun q hq => h q (List.mem_cons_of_mem _ hq)
    have hd := ih hrest
    by_cases hh : mapHas rp.2 uid
    · by_cases he : (mapDel rp.2 uid).isEmpty
      · simpa [handleDisconnect, hh, he] using hd
      · simp only [handleDisconnect, hh, if_true, if_neg he]
        intro q hq
        rcases List.mem_cons.mp hq with h1 | h2
        · subst h1
          simpa [List.isEmpty_iff] using he
        · exact hd q h2
    · simp only [handleDisconnect, Bool.not_eq_true] at hh ⊢
      simp only [hh, Bool.false_eq_true, if_false]
      intro q hq
      rcases List.mem_cons.mp hq with h1 | h2
      · subst h1
        exact h rp (List.mem_cons_self _ _)
      · exact hd q h2

theorem handleDisconnect_mem (uid uname : String) (reg : Registry)
    (q : String × EntryMap) (hq : q ∈ (handleDisconnect uid uname reg).1) :
    ∃ m0, (q.1, m0) ∈ reg ∧
      ((mapHas m0 uid = false ∧ q.2 = m0) ∨
       (mapHas m0 uid = true ∧ mapDel m0 uid ≠ [] ∧ q.2 = mapDel m0 uid)) := by
  induction reg with
  | nil => simp [handleDisconnect] at hq
  | cons rp rest ih =>
    by_cases hh : mapHas rp.2 uid
    · by_cases he : (mapDel rp.2 uid).isEmpty
      · simp only [handleDisconnect, hh, if_true, if_pos he] at hq
        rcases ih hq with ⟨m0, hmem, hcase⟩
        exact ⟨m0, List.mem_cons_of_mem _ hmem, hcase⟩
      · simp only [handleDisconnect, hh, if_true, if_neg he,
          List.mem_cons] at hq
        rcases hq with h1 | h2
        · subst h1
          exact ⟨rp.2, by simp, Or.inr ⟨hh, by simpa [List.isEmpty_iff] using he, rfl⟩⟩
        · rcases ih h2 with ⟨m0, hmem, hcase⟩
          exact ⟨m0, List.mem_cons_of_mem _ hmem, hcase⟩
    · simp only [handleDisconnect, Bool.not_eq_true] at hh
      simp only [handleDisconnect, hh, Bool.false_eq_true, if_false,
        List.mem_cons] at hq
      rcases hq with h1 | h2
      · subst h1
        exact ⟨rp.2, by simp, Or.inl ⟨hh, rfl⟩⟩
      · rcases ih h2 with ⟨m0, hmem, hcase⟩
        exact ⟨m0, List.mem_cons_of_mem _ hmem, hcase⟩

theorem handleDisconnect_events (uid uname : String) (reg : Registry) :
    (handleDisconnect uid uname reg).2 =
      (reg.filter fun rp => mapHas rp.2 uid).map
        fun rp => (EmitScope.toRoomOthers rp.1, Event.participantLeft uid uname) := by
  induction reg with
  | nil => simp [handleDisconnect]
  | cons rp rest ih =>
    by_cases hh : mapHas rp.2 uid
    · by_cases he : (mapDel rp.2 uid).isEmpty <;>
        simp [handleDisconnect, hh, he, List.filter_cons, ih]
    · simp only [Bool.not_eq_true] at hh
      simp [handleDisconnect, hh, List.filter_cons, ih]

theorem handleDisconnect_no_entry (uid uname : String) (reg : Registry)
    (r : String) :
    regHasEntry (handleDisconnect uid uname reg).1 r uid = false := by
  unfold regHasEntry
  cases hres : mapGet (handleDisconnect uid uname reg).1 r with
  | none => rfl
  | some m1 =>
    rcases handleDisconnect_mem uid uname reg (r, m1) (mapGet_mem _ _ _ hres) with
      ⟨m0, _, hcase⟩
    rcases hcase with ⟨hf, he⟩ | ⟨_, _, he⟩
    · have he2 : m1 = m0 := he
      rw [he2]
      exact hf
    · have he2 : m1 = mapDel m0 uid := he
      rw [he2]
      exact mapHas_mapDel_self m0 uid

theorem handleDisconnect_prunes (uid uname : String) (reg : Registry)
    (hnd : nodupKeys reg) (r : String) (m : EntryMap)
    (hg : mapGet reg r = some m) (hh : mapHas m uid = true)
    (he : mapDel m uid = []) :
    mapGet (handleDisconnect uid uname reg).1 r = none := by
  cases hres : mapGet (handleDisconnect uid uname reg).1 r with
  | none => rfl
  | some m1 =>
    exfalso
    rcases handleDisconnect_mem uid uname reg (r, m1) (mapGet_mem _ _ _ hres) with
      ⟨m0, hmem, hcase⟩
    have hgm : mapGet reg r = some m0 := mapGet_of_mem_nodup reg r m0 hnd hmem
    rw [hg] at hgm
    injection hgm with hm0
    subst hm0
    rcases hcase with ⟨hf, _⟩ | ⟨_, hne, _⟩
    · simp [hh] at hf
    · exact hne he

theorem handleDisconnect_updates (uid uname r : String) :
    ∀ (reg : Registry), nodupKeys reg → ∀ m : EntryMap,
      mapGet reg r = some m → mapHas m uid = true → mapDel m uid ≠ [] →
      mapGet (handleDisconnect uid uname reg).1 r = some (mapDel m uid) := by
  intro reg
  induction reg with
  | nil =>
    intro _ m hg
    simp [mapGet] at hg
  | cons rp rest ih =>
    intro hnd m hg hh hne
    by_cases hr : rp.1 = r
    · have hm : rp.2 = m := by simpa [mapGet, hr] using hg
      subst hm
      have he : (mapDel rp.2 uid).isEmpty = false := by
        simp [List.isEmpty_iff, hne]
      simp [handleDisconnect, hh, he, mapGet, hr]
    · have hg2 : mapGet rest r = some m := by simpa [mapGet, hr] using hg
      have ih2 := ih (nodupKeys_cons hnd) m hg2 hh hne
      by_cases hh2 : mapHas rp.2 uid
      · by_cases he2 : (mapDel rp.2 uid).isEmpty
        · simpa [handleDisconnect, hh2, he2] using ih2
        · simpa [handleDisconnect, hh2, he2, mapGet, hr] using ih2
      · simp only [Bool.not_eq_true] at hh2
        simpa [handleDisconnect, hh2, mapGet, hr] using ih2

theorem regBad_reachable :
    Relation.ReflTransGen Step4 [] [("R", ([] : EntryMap))] := by
  have e1 : (handleJoinRoom db0 "g" "G" "R" []).1 = [("R", [("g", entryG)])] := by
    decide
  have e2 : (handleHostRemove db0 0 "h" "H" "R" "g" []
      [("R", [("g", entryG)])]).2.1 = [("R", ([] : EntryMap))] := by
    decide
  have s1 : Step4 [] [("R", [("g", entryG)])] :=
    e1 ▸ Step4.join db0 "g" "G" "R" []
  have s2 : Step4 [("R", [("g", entryG)])] [("R", ([] : EntryMap))] :=
    e2 ▸ Step4.hostRemove db0 0 "h" "H" "R" "g" [] [("R", [("g", entryG)])]
  exact Relation.ReflTransGen.tail (Relation.ReflTransGen.single s1) s2

/-- C1 counterexample: with `host-remove-participant` among the
operations, a registry state holding room `R` as a key with an empty
entry map is reachable (guest `g` joins `R`, then host `h` removes `g`:
the handler at socket/index.ts:282-284 deletes the entry but never
prunes the emptied room key), refuting the claimed invariant. -/
theorem claim_C1_counterexample :
    Reach4 [("R", ([] : EntryMap))] ∧
    mapHas [("R", ([] : EntryMap))] "R" = true ∧
    mapGet [("R", ([] : EntryMap))] "R" = some [] :=
  ⟨regBad_reachable, by decide, by decide⟩

/-- C1 (amended): for every registry state reachable by any sequence of
join-room, leave-room and disconnect operations, a room id is a key of
the registry iff its entry map has at least one entry; join/leave/
disconnect never leave an empty room collection (host-remove-participant
is excluded: it can leave an emptied room key behind). -/
theorem claim_C1_registry_invariant (reg : Registry) (h : Reach3 reg)
    (r : String) :
    mapHas reg r = true ↔ ∃ m, mapGet reg r = some m ∧ m ≠ [] := by
  have hinv : RegInv reg := by
    induction h with
    | refl => exact RegInv_nil
    | tail hsteps hstep ih =>
      cases hstep with
      | join db uid uname roomId => exact RegInv_join db uid uname roomId _ ih
      | leave uid uname roomId => exact RegInv_leave uid uname roomId _ ih
      | disc uid uname => exact RegInv_disc uid uname _ ih
  constructor
  · intro hh
    rcases Option.isSome_iff_exists.mp (by simpa [mapHas] using hh) with ⟨m, hm⟩
    exact ⟨m, hm, hinv (r, m) (mapGet_mem reg r m hm)⟩
  · rintro ⟨m, hm, _⟩
    simp [mapHas, hm]

theorem claim_C1_witness :
    mapHas [("R", [("g", entryG)])] "R" = true ↔
      ∃ m, mapGet [("R", [("g", entryG)])] "R" = some m ∧ m ≠ [] := by
  have e1 : (handleJoinRoom db0 "g" "G" "R" []).1 = [("R", [("g", entryG)])] := by
    decide
  exact claim_C1_registry_invariant _
    (Relation.ReflTransGen.single (e1 ▸ Step3.join db0 "g" "G" "R" [])) "R"

/-- C2: a successful join-room (room exists, active, the user has a
participant row with leftAt = null) leaves exactly one presence entry
for (room, user) — also when an older entry existed — with muted =
false, videoOff = not room.videoEnabled, and the persisted row's role. -/
theorem claim_C2_join_overwrites (db : DB) (uid uname roomId : String)
    (reg : Registry) (room : RoomRec) (pr : PartRec)
    (hroom : dbGetRoom db roomId = some room)
    (hactive : room.isActive = true)
    (hpart : mapGet db.parts (uid, roomId) = some pr)
    (hleft : pr.leftAt = none)
    (hcnt : countKey ((mapGet reg roomId).getD []) uid ≤ 1) :
    ∃ m1, mapGet (handleJoinRoom db uid uname roomId reg).1 roomId = some m1 ∧
      countKey m1 uid = 1 ∧
      mapGet m1 uid = some ⟨uid, uname, false, !room.videoEnabled, pr.role⟩ := by
  have hap : dbGetActivePart db uid roomId = some pr := by
    simp [dbGetActivePart, hpart, hleft]
  refine ⟨mapSet ((mapGet reg roomId).getD []) uid
    ⟨uid, uname, false, !room.videoEnabled, pr.role⟩, ?_, ?_, ?_⟩
  · simp only [handleJoinRoom, hroom, hap, hactive, Bool.true_eq_false,
      if_neg (by simp : ¬(true = false))]
    exact mapGet_mapSet_self reg roomId _
  · exact countKey_mapSet _ uid _ hcnt
  · exact mapGet_mapSet_self _ uid _

theorem claim_C2_witness :
    ∃ m1, mapGet (handleJoinRoom db0 "g" "G" "R" []).1 "R" = some m1 ∧
      countKey m1 "g" = 1 ∧
      mapGet m1 "g" = some ⟨"g", "G", false, !roomR.videoEnabled, Role.GUEST⟩ :=
  claim_C2_join_overwrites db0 "g" "G" "R" [] roomR ⟨Role.GUEST, none⟩
    (by decide) (by decide) (by decide) rfl (by decide)

/-- C3: join-room fails, in this order, with the room-not-found error
when the persisted room is missing, the room-inactive error when its
active flag is false, and the not-a-participant error when no
participant row with leftAt = null exists; each failure emits a single
error event to the caller only and leaves the registry unchanged. -/
theorem claim_C3_join_failure_order (db : DB) (uid uname roomId : String)
    (reg : Registry) :
    (dbGetRoom db roomId = none →
      handleJoinRoom db uid uname roomId reg =
        (reg, [(EmitScope.toCaller, Event.error "Room not found")])) ∧
    (∀ room, dbGetRoom db roomId = some room → room.isActive = false →
      handleJoinRoom db uid uname roomId reg =
        (reg, [(EmitScope.toCaller, Event.error "Room is not active")])) ∧
    (∀ room, dbGetRoom db roomId = some room → room.isActive = true →
      dbGetActivePart db uid roomId = none →
      handleJoinRoom db uid uname roomId reg =
        (reg, [(EmitScope.toCaller,
                Event.error "You are not a participant in this room")])) := by
  refine ⟨fun h => ?_, fun room h ha => ?_, fun room h ha hp => ?_⟩
  · simp [handleJoinRoom, h]
  · simp [handleJoinRoom, h, ha]
  · simp [handleJoinRoom, h, ha, hp]

theorem claim_C3_witness :
    handleJoinRoom db0 "u" "U" "X" [] =
      ([], [(EmitScope.toCaller, Event.error "Room not found")]) ∧
    handleJoinRoom db0 "g" "G" "S" [] =
      ([], [(EmitScope.toCaller, Event.error "Room is not active")]) ∧
    handleJoinRoom db0 "x" "X" "R" [] =
      ([], [(EmitScope.toCaller,
             Event.error "You are not a participant in this room")]) :=
  ⟨(claim_C3_join_failure_order db0 "u" "U" "X" []).1 (by decide),
   (claim_C3_join_failure_order db0 "g" "G" "S" []).2.1 roomS (by decide)
     (by decide),
   (claim_C3_join_failure_order db0 "x" "X" "R" []).2.2 roomR (by decide)
     (by decide) (by decide)⟩

/-- C4: a disconnect removes the user's presence entry from every room
of the registry (afterwards no room holds an entry for the user), emits
one participant-left event to the others of exactly the rooms where the
user was present, prunes each room whose entry map the deletion
emptied, and keeps rooms that stay nonempty with just the user's entry
removed. -/
theorem claim_C4_disconnect_all_rooms (uid uname : String) (reg : Registry)
    (hnd : nodupKeys reg) :
    (∀ r, regHasEntry (handleDisconnect uid uname reg).1 r uid = false) ∧
    ((handleDisconnect uid uname reg).2 =
      (reg.filter fun rp => mapHas rp.2 uid).map
        fun rp => (EmitScope.toRoomOthers rp.1,
                   Event.participantLeft uid uname)) ∧
    (∀ r m, mapGet reg r = some m → mapHas m uid = true → mapDel m uid = [] →
      mapGet (handleDisconnect uid uname reg).1 r = none) ∧
    (∀ r m, mapGet reg r = some m → mapHas m uid = true → mapDel m uid ≠ [] →
      mapGet (handleDisconnect uid uname reg).1 r = some (mapDel m uid)) :=
  ⟨handleDisconnect_no_entry uid uname reg,
   handleDisconnect_events uid uname reg,
   fun r m hg hh he => handleDisconnect_prunes uid uname reg hnd r m hg hh he,
   fun r m hg hh hne => handleDisconnect_updates uid uname r reg hnd m hg hh hne⟩

theorem claim_C4_witness :
    regHasEntry (handleDisconnect "g" "G" regW).1 "R" "g" = false ∧
    regHasEntry (handleDisconnect "g" "G" regW).1 "Q" "g" = false := by
  have h := claim_C4_disconnect_all_rooms "g" "G" regW (by decide)
  exact ⟨h.1 "R", h.1 "Q"⟩

/-- C5: when the caller is the room's host, host-mute-participant
always broadcasts a single participant-muted-by-host event, carrying
the target id and the muter's name, to the whole room; the target's
entry gets muted = true when it exists, and the registry stays
unchanged when it does not. -/
theorem claim_C5_host_mute (db : DB) (uid uname roomId targetUserId : String)
    (reg : Registry) (room : RoomRec)
    (hroom : dbGetRoom db roomId = some room) (hhost : room.hostId = uid) :
    ((handleHostMute db uid uname roomId targetUserId reg).2 =
      [(EmitScope.toRoomAll roomId,
        Event.participantMutedByHost targetUserId uname)]) ∧
    (regHasEntry reg roomId targetUserId = false →
      (handleHostMute db uid uname roomId targetUserId reg).1 = reg) ∧
    (∀ m p, mapGet reg roomId = some m → mapGet m targetUserId = some p →
      (handleHostMute db uid uname roomId targetUserId reg).1 =
        mapSet reg roomId (mapSet m targetUserId { p with odIsMuted := true })) := by
  refine ⟨?_, fun hno => ?_, fun m p hm hp => ?_⟩
  · simp only [handleHostMute, hroom, if_pos hhost]
  · cases hm : mapGet reg roomId with
    | none => simp [handleHostMute, hroom, hhost, hm]
    | some m =>
      cases hp : mapGet m targetUserId with
      | none => simp [handleHostMute, hroom, hhost, hm, hp]
      | some p =>
        exfalso
        simp [regHasEntry, hm, mapHas, hp] at hno
  · simp [handleHostMute, hroom, hhost, hm, hp]

theorem claim_C5_witness :
    (handleHostMute db0 "h" "H" "R" "g" [("R", [("g", entryG)])]).2 =
      [(EmitScope.toRoomAll "R", Event.participantMutedByHost "g" "H")] :=
  (claim_C5_host_mute db0 "h" "H" "R" "g" [("R", [("g", entryG)])] roomR
    (by decide) (by decide)).1

/-- C6: when the caller is the room's host and targets their own user
id, host-remove-participant emits only a CannotRemoveSelf error event
to the caller: no broadcast, no registry change, and no persisted
participant write. -/
theorem claim_C6_remove_self (db : DB) (now : Nat) (uid uname roomId : String)
    (socketsInRoom : List String) (reg : Registry) (room : RoomRec)
    (hroom : dbGetRoom db roomId = some room) (hhost : room.hostId = uid) :
    handleHostRemove db now uid uname roomId uid socketsInRoom reg =
      (db, reg,
       [(EmitScope.toCaller, Event.error "Host cannot remove themselves")]) := by
  simp [handleHostRemove, hroom, hhost]

theorem claim_C6_witness :
    handleHostRemove db0 0 "h" "H" "R" "h" [] [("R", [("g", entryG)])] =
      (db0, [("R", [("g", entryG)])],
       [(EmitScope.toCaller, Event.error "Host cannot remove themselves")]) :=
  claim_C6_remove_self db0 0 "h" "H" "R" [] [("R", [("g", entryG)])] roomR
    (by decide) (by decide)

/-- C7: toggle-audio and toggle-video are silent no-ops (no event, no
registry change) when the sender has no presence entry in the named
room; when the sender has an entry, exactly its muted (resp. videoOff)
flag is set to the supplied boolean and a single changed event is sent
to the room's other connections, excluding the sender. -/
theorem claim_C7_toggles (uid roomId : String) (b : Bool) (reg : Registry) :
    (regHasEntry reg roomId uid = false →
      handleToggleAudio uid roomId b reg = (reg, []) ∧
      handleToggleVideo uid roomId b reg = (reg, [])) ∧
    (∀ m p, mapGet reg roomId = some m → mapGet m uid = some p →
      handleToggleAudio uid roomId b reg =
        (mapSet reg roomId (mapSet m uid { p with odIsMuted := b }),
         [(EmitScope.toRoomOthers roomId,
           Event.participantAudioChanged uid b)]) ∧
      handleToggleVideo uid roomId b reg =
        (mapSet reg roomId (mapSet m uid { p with odIsVideoOff := b }),
         [(EmitScope.toRoomOthers roomId,
           Event.participantVideoChanged uid b)])) := by
  refine ⟨fun hno => ?_, fun m p hm hp => ?_⟩
  · cases hm : mapGet reg roomId with
    | none => exact ⟨by simp [handleToggleAudio, hm], by simp [handleToggleVideo, hm]⟩
    | some m =>
      cases hp : mapGet m uid with
      | none => exact ⟨by simp [handleToggleAudio, hm, hp],
                       by simp [handleToggleVideo, hm, hp]⟩
      | some p =>
        exfalso
        simp [regHasEntry, hm, mapHas, hp] at hno
  · exact ⟨by simp [handleToggleAudio, hm, hp],
           by simp [handleToggleVideo, hm, hp]⟩

theorem claim_C7_witness :
    handleToggleAudio "u" "R" true [] = ([], []) ∧
    handleToggleVideo "u" "R" true [] = ([], []) :=
  (claim_C7_toggles "u" "R" true []).1 (by decide)

/-- C8: a chat-message whose text trims to the empty string (empty or
whitespace-only) produces no event at all — no broadcast and no error —
and leaves the registry unchanged. -/
theorem claim_C8_chat_empty (uid uname roomId message msgId ts : String)
    (reg : Registry) (h : jsTrim message = "") :
    handleChatMessage uid uname roomId message msgId ts reg = (reg, []) := by
  simp [handleChatMessage, h]

theorem claim_C8_witness :
    handleChatMessage "g" "G" "R" "  " "m1" "t1" [("R", [("g", entryG)])] =
      ([("R", [("g", entryG)])], []) :=
  claim_C8_chat_empty "g" "G" "R" "  " "m1" "t1" [("R", [("g", entryG)])]
    (by decide)

/-- C9: when the caller is the room's host, a waiting-room row exists
for the user and no participant row exists yet, approve-waiting-
participant sets the waiting-room status to APPROVED, creates a
participant row with role GUEST (leftAt null), broadcasts a single
waiting-room-approved event with the user id to the room, and leaves
the presence registry completely unchanged. -/
theorem claim_C9_approve (db : DB) (uid roomId userId : String)
    (reg : Registry) (room : RoomRec) (st : WStatus)
    (hroom : dbGetRoom db roomId = some room) (hhost : room.hostId = uid)
    (hwait : mapGet db.waiting (userId, roomId) = some st)
    (hnopart : mapGet db.parts (userId, roomId) = none) :
    ∃ db2, handleApproveWaiting db uid roomId userId reg =
      (db2, reg, [(EmitScope.toRoomAll roomId,
                   Event.waitingRoomApproved userId)]) ∧
      mapGet db2.waiting (userId, roomId) = some WStatus.APPROVED ∧
      mapGet db2.parts (userId, roomId) = some ⟨Role.GUEST, none⟩ ∧
      db2.rooms = db.rooms := by
  have hh : mapHas db.parts (userId, roomId) = false := by
    simp [mapHas, hnopart]
  refine ⟨{ rooms := db.rooms,
            parts := db.parts ++ [((userId, roomId), ⟨Role.GUEST, none⟩)],
            waiting := mapSet db.waiting (userId, roomId) WStatus.APPROVED },
          ?_, ?_, ?_, rfl⟩
  · simp [handleApproveWaiting, hroom, hhost, hwait, hh]
  · exact mapGet_mapSet_self db.waiting (userId, roomId) WStatus.APPROVED
  · exact mapGet_append_some db.parts (userId, roomId) _ hnopart

theorem claim_C9_witness :
    ∃ db2, handleApproveWaiting db0 "h" "R" "w" [("R", [("g", entryG)])] =
      (db2, [("R", [("g", entryG)])],
       [(EmitScope.toRoomAll "R", Event.waitingRoomApproved "w")]) ∧
      mapGet db2.waiting ("w", "R") = some WStatus.APPROVED ∧
      mapGet db2.parts ("w", "R") = some ⟨Role.GUEST, none⟩ ∧
      db2.rooms = db0.rooms :=
  claim_C9_approve db0 "h" "R" "w" [("R", [("g", entryG)])] roomR
    WStatus.PENDING (by decide) (by decide) (by decide) (by decide)

/-- C10 counterexample: the reachable registry state where room `R` is
a key with an empty entry map (left behind by host-remove-participant)
refutes "the registry is unchanged": a leave-room for `R` from a user
with no entry there prunes the empty room key, so the registry shrinks
from one room to none — though the broadcast still happens and no error
is emitted. -/
theorem claim_C10_counterexample :
    Reach4 [("R", ([] : EntryMap))] ∧
    regHasEntry [("R", ([] : EntryMap))] "R" "u" = false ∧
    (handleLeaveRoom "u" "U" "R" [("R", ([] : EntryMap))]).1 = [] ∧
    (handleLeaveRoom "u" "U" "R" [("R", ([] : EntryMap))]).2 =
      [(EmitScope.toRoomOthers "R", Event.participantLeft "u" "U")] :=
  ⟨regBad_reachable, by decide, by decide, by decide⟩

/-- C10 (amended): a leave-room naming a room where the sender has no
presence entry emits no error and still broadcasts one participant-left
event carrying the sender's id and name to the room's remaining
connections; the registry's entries are unchanged — no presence entry
is added or removed — and the registry itself is unchanged unless the
named room is present with an already-empty entry map, in which case
only that empty room key is pruned. -/
theorem claim_C10_leave_no_entry (uid uname roomId : String)
    (reg : Registry) (hnd : nodupKeys reg)
    (hno : regHasEntry reg roomId uid = false) :
    ((handleLeaveRoom uid uname roomId reg).2 =
      [(EmitScope.toRoomOthers roomId, Event.participantLeft uid uname)]) ∧
    (mapGet reg roomId = none →
      (handleLeaveRoom uid uname roomId reg).1 = reg) ∧
    (∀ m, mapGet reg roomId = some m → m ≠ [] →
      (handleLeaveRoom uid uname roomId reg).1 = reg) ∧
    (mapGet reg roomId = some [] →
      (handleLeaveRoom uid uname roomId reg).1 = mapDel reg roomId) := by
  refine ⟨rfl, fun h => ?_, fun m hm hne => ?_, fun hm => ?_⟩
  · simp [handleLeaveRoom, h]
  · have hgn : mapGet m uid = none := by
      simp only [regHasEntry, hm, mapHas] at hno
      cases hg : mapGet m uid with
      | none => rfl
      | some p => simp [hg] at hno
    have hdel : mapDel m uid = m := mapDel_eq_self m uid hgn
    have hemp : (mapDel m uid).isEmpty = false := by
      simp [hdel, List.isEmpty_iff, hne]
    simp only [handleLeaveRoom, hm, hemp, Bool.false_eq_true, if_false]
    rw [hdel]
    exact mapSet_eq_self reg roomId m hnd hm
  · simp [handleLeaveRoom, hm, mapDel]

theorem claim_C10_witness :
    (handleLeaveRoom "u" "U" "R" [("Q", [("k", entryK)])]).2 =
      [(EmitScope.toRoomOthers "R", Event.participantLeft "u" "U")] ∧
    (handleLeaveRoom "u" "U" "R" [("Q", [("k", entryK)])]).1 =
      [("Q", [("k", entryK)])] := by
  have h := claim_C10_leave_no_entry "u" "U" "R" [("Q", [("k", entryK)])]
    (by decide) (by decide)
  exact ⟨h.1, h.2.1 (by decide)⟩

end Riverside
